import Mathlib

/-!
Verification development for the blake-streams repository.

The definitions below are a shallow embedding of the two source files
`src/src/store.rs` and `src/core/src/stream.rs`.  Bytes are modelled as
naturals (with explicit `< 256` bounds where relevant), byte strings as
`List Nat`, Rust strings as `List Char`, and the sled key/value store as
an association list.  External primitives (Ed25519, the Bao hash tree)
are abstracted as function parameters, exactly as the spec treats them
as black boxes.
-/

namespace BlakeStreams

/-- StreamId from stream.rs: a 32-byte Ed25519 public key and a u64
stream number. -/
structure StreamId where
  peer : List Nat
  stream : Nat
deriving DecidableEq

/-- Head from stream.rs: id, 32-byte root hash, u64 byte length. -/
structure Head where
  id : StreamId
  hash : List Nat
  len : Nat
deriving DecidableEq

/-- SignedHead from stream.rs: a head and a 64-byte Ed25519 signature. -/
structure SignedHead where
  head : Head
  sig : List Nat
deriving DecidableEq

/-- Stream record from stream.rs: signed head plus outboard tree bytes. -/
structure Stream where
  head : SignedHead
  outboard : List Nat
deriving DecidableEq

/-- Slice from stream.rs: a signed head plus proof-carrying data bytes. -/
structure Slice where
  head : SignedHead
  data : List Nat
deriving DecidableEq

/-- Little-endian 8-byte encoding of a u64, as produced by the
`repr(C)` layout of `u64` fields on a little-endian machine. -/
def u64LE (n : Nat) : List Nat :=
  [n % 256, n / 256 % 256, n / 256 ^ 2 % 256, n / 256 ^ 3 % 256,
   n / 256 ^ 4 % 256, n / 256 ^ 5 % 256, n / 256 ^ 6 % 256, n / 256 ^ 7 % 256]

/-- Head::as_bytes: the canonical 80-byte layout, peer, stream, hash, len. -/
def Head.bytes (h : Head) : List Nat :=
  h.id.peer ++ u64LE h.id.stream ++ h.hash ++ u64LE h.len

/-- Head::new from stream.rs: length 0 and the literal empty-input Bao
root digest. -/
def Head.new (id : StreamId) : Head :=
  { id := id
    hash := [175, 19, 73, 185, 245, 249, 161, 166, 160, 64, 77, 234, 54, 220,
             201, 73, 155, 203, 37, 201, 173, 193, 18, 183, 204, 154, 147, 202,
             228, 31, 50, 98]
    len := 0 }

/-- SignedHead::new from stream.rs: fresh head with the all-zero
signature sentinel. -/
def SignedHead.new (id : StreamId) : SignedHead :=
  { head := Head.new id, sig := List.replicate 64 0 }

/-- Stream::new from stream.rs: fresh signed head and the 8-byte
outboard `vec![0, 0, 0, 0, 0, 0, 0, 0]`. -/
def Stream.new (id : StreamId) : Stream :=
  { head := SignedHead.new id, outboard := [0, 0, 0, 0, 0, 0, 0, 0] }

/-- Outcome of SignedHead::verify, distinguishing the process abort
caused by the `unwrap` in StreamId::peer from ordinary errors. -/
inductive VerifyOutcome where
  | ok
  | errMismatchedId
  | errSignature
  | panicked
deriving DecidableEq

/-- SignedHead::verify from stream.rs.  `keyValid` models whether
`PublicKey::from_bytes` succeeds on the 32 peer bytes; `verifyStrict`
models `verify_strict(key, msg, sig)`.  The source first compares the
ids, then calls `id.peer()` which is
`PublicKey::from_bytes(&self.peer).unwrap()` and therefore panics on an
invalid key, and finally performs strict verification over the 80
canonical head bytes. -/
def SignedHead.verify (keyValid : List Nat → Bool)
    (verifyStrict : List Nat → List Nat → List Nat → Bool)
    (sh : SignedHead) (id : StreamId) : VerifyOutcome :=
  if id ≠ sh.head.id then .errMismatchedId
  else if keyValid sh.head.id.peer = false then .panicked
  else if verifyStrict sh.head.id.peer sh.head.bytes sh.sig then .ok
  else .errSignature

/-- Value of one base64url alphabet character, the table used by
`base64::decode_config(.., URL_SAFE_NO_PAD)`. -/
def charToSextet (c : Char) : Option Nat :=
  let n := c.toNat
  if 65 ≤ n ∧ n ≤ 90 then some (n - 65)
  else if 97 ≤ n ∧ n ≤ 122 then some (n - 71)
  else if 48 ≤ n ∧ n ≤ 57 then some (n + 4)
  else if n = 45 then some 62
  else if n = 95 then some 63
  else none

/-- Character for a six-bit value, the base64url alphabet used by
`base64::encode_config(.., URL_SAFE_NO_PAD)`. -/
def sextetToChar (n : Nat) : Char :=
  Char.ofNat
    (if n < 26 then n + 65
     else if n < 52 then n + 71
     else if n < 62 then n - 4
     else if n = 62 then 45
     else 95)

/-- Bytes to six-bit groups, processing three input bytes at a time;
unpadded base64 leaves two or three trailing characters for a one or
two byte tail. -/
def b64EncodeChunks : List Nat → List Nat
  | [] => []
  | [b1] => [b1 / 4, b1 % 4 * 16]
  | [b1, b2] => [b1 / 4, b1 % 4 * 16 + b2 / 16, b2 % 16 * 4]
  | b1 :: b2 :: b3 :: rest =>
      b1 / 4 :: (b1 % 4 * 16 + b2 / 16) :: (b2 % 16 * 4 + b3 / 64) :: b3 % 64 ::
        b64EncodeChunks rest

/-- Six-bit groups back to bytes.  A single trailing character is an
invalid length, and nonzero trailing bits in the final character are
rejected, as the base64 crate does without
`decode_allow_trailing_bits`. -/
def b64DecodeChunks : List Nat → Option (List Nat)
  | [] => some []
  | [_] => none
  | [s1, s2] => if s2 % 16 = 0 then some [s1 * 4 + s2 / 16] else none
  | [s1, s2, s3] =>
      if s3 % 4 = 0 then some [s1 * 4 + s2 / 16, s2 % 16 * 16 + s3 / 4] else none
  | s1 :: s2 :: s3 :: s4 :: rest =>
      (b64DecodeChunks rest).map fun bs =>
        (s1 * 4 + s2 / 16) :: (s2 % 16 * 16 + s3 / 4) :: (s3 % 4 * 64 + s4) :: bs

/-- Map every character to its sextet value, failing on the first
character outside the alphabet. -/
def charsToSextets : List Char → Option (List Nat)
  | [] => some []
  | c :: cs =>
      match charToSextet c, charsToSextets cs with
      | some s, some ss => some (s :: ss)
      | _, _ => none

/-- base64::encode_config with URL_SAFE_NO_PAD. -/
def base64Encode (bs : List Nat) : List Char :=
  (b64EncodeChunks bs).map sextetToChar

/-- base64::decode_config with URL_SAFE_NO_PAD. -/
def base64Decode (s : List Char) : Option (List Nat) :=
  (charsToSextets s).bind b64DecodeChunks

/-- str::split_once: split at the first occurrence of `c`. -/
def splitOnce (c : Char) : List Char → Option (List Char × List Char)
  | [] => none
  | x :: xs =>
      if x = c then some ([], xs)
      else Option.map (fun p => (x :: p.1, p.2)) (splitOnce c xs)

/-- Leading sign handling of `u64::from_str`: one leading plus sign is
stripped; a minus sign is not a digit and will fail the digit check. -/
def stripPlus : List Char → List Char
  | [] => []
  | c :: rest => if c = '+' then rest else c :: rest

/-- Value of a most-significant-first ASCII digit string. -/
def digitsVal (t : List Char) : Nat :=
  t.foldl (fun acc c => acc * 10 + (c.toNat - 48)) 0

/-- u64::from_str: optional leading plus, at least one ASCII digit, and
the value must fit in 64 bits. -/
def parseU64 (s : List Char) : Option Nat :=
  if (stripPlus s).isEmpty then none
  else if (stripPlus s).all Char.isDigit then
    if digitsVal (stripPlus s) < 2 ^ 64 then some (digitsVal (stripPlus s))
    else none
  else none

/-- Decimal digits of `n`, most significant first, by repeated division
as in the u64 Display implementation; `fuel` bounds the recursion. -/
def decDigits (fuel n : Nat) : List Char :=
  match fuel with
  | 0 => []
  | f + 1 => if n = 0 then [] else decDigits f (n / 10) ++ [Char.ofNat (48 + n % 10)]

/-- Display for u64: the usual decimal rendering. -/
def natToDecimal (n : Nat) : List Char :=
  if n = 0 then ['0'] else decDigits 20 n

/-- Debug/Display for StreamId from stream.rs: base64url of the peer,
a dot, then the decimal stream number. -/
def formatId (id : StreamId) : List Char :=
  base64Encode id.peer ++ '.' :: natToDecimal id.stream

/-- FromStr for StreamId from stream.rs: split at the first dot, base64
decode the peer part, `resize(32, 0)` (right-pad short inputs with
zeros, truncate long ones), and parse the suffix as u64. -/
def fromStr (s : List Char) : Option StreamId :=
  match splitOnce '.' s with
  | none => none
  | some (peerPart, streamPart) =>
      match base64Decode peerPart with
      | none => none
      | some bytes =>
          match parseU64 streamPart with
          | none => none
          | some n => some ⟨(bytes ++ List.replicate 32 0).take 32, n⟩

/-- Error kinds of the storage engine, per the errors produced in
store.rs and the kinds named in the spec. -/
inductive StoreError where
  | busy
  | notFound
  | alreadyExists
  | notLocal
  | rangeOutOfBounds
  | ioAlreadyExists
  | ioNotFound
deriving DecidableEq

/-- State of a StreamStorage from store.rs: the sled KV as an
association list, the per-stream data files keyed by id (paths are a
pure function of the id), the lock set, and the public half of the
store keypair. -/
structure Engine where
  kv : List (StreamId × Stream)
  files : List (StreamId × List Nat)
  locks : List StreamId
  keyPub : List Nat
deriving DecidableEq

/-- db.get on the KV index. -/
def kvGet (kv : List (StreamId × Stream)) (id : StreamId) : Option Stream :=
  match kv.find? (fun p => decide (p.1 = id)) with
  | some p => some p.2
  | none => none

/-- db.insert on the KV index: single-key overwrite. -/
def kvInsert (kv : List (StreamId × Stream)) (id : StreamId) (s : Stream) :
    List (StreamId × Stream) :=
  (id, s) :: kv.filter (fun p => decide (p.1 ≠ id))

/-- db.remove on the KV index. -/
def kvRemove (kv : List (StreamId × Stream)) (id : StreamId) :
    List (StreamId × Stream) :=
  kv.filter (fun p => decide (p.1 ≠ id))

/-- Contents of the data file of `id`, when that file exists. -/
def fileGet (files : List (StreamId × List Nat)) (id : StreamId) :
    Option (List Nat) :=
  match files.find? (fun p => decide (p.1 = id)) with
  | some p => some p.2
  | none => none

/-- std::fs::remove_file on the data file of `id`. -/
def fileRemove (files : List (StreamId × List Nat)) (id : StreamId) :
    List (StreamId × List Nat) :=
  files.filter (fun p => decide (p.1 ≠ id))

/-- StreamStorage::lock_stream from store.rs: fail with Busy when the
id is already in the set, otherwise insert it. -/
def lockStream (locks : List StreamId) (id : StreamId) :
    Except StoreError (List StreamId) :=
  if id ∈ locks then .error .busy else .ok (id :: locks)

/-- Drop of a StreamLock from stream.rs: remove the id from the set. -/
def lockDrop (locks : List StreamId) (id : StreamId) : List StreamId :=
  locks.erase id

/-- Writer returned by append_local_stream: holds the stream state and
the key it will sign with. -/
structure StreamWriterM where
  id : StreamId
  stream : Stream
  keyPub : List Nat
deriving DecidableEq

/-- Modelled from the spec: `StreamWriter::new` is code of this
repository that is not under src/.  Per spec section 4.6 the writer
holds the lock token, the open data file, an incremental encoder seeded
with the record state, the KV handle and, for local streams, the
signing key; the spec describes no peer check and no fallible step at
construction other than file I/O, which this model abstracts as
success. -/
def streamWriterNew (id : StreamId) (st : Stream) (keyPub : List Nat) :
    StreamWriterM :=
  ⟨id, st, keyPub⟩

/-- StreamStorage::append_local_stream from store.rs: acquire the lock,
look up the record, and hand the record together with the signing key
to the writer.  On the NotFound path the just-acquired lock token is
dropped, so the lock set is left unchanged. -/
def appendLocalStream (e : Engine) (id : StreamId) :
    Except StoreError (Engine × StreamWriterM) :=
  match lockStream e.locks id with
  | .error err => .error err
  | .ok locks2 =>
      match kvGet e.kv id with
      | none => .error .notFound
      | some st => .ok ({ e with locks := locks2 }, streamWriterNew id st e.keyPub)

/-- Drop of a writer: its StreamLock is dropped, removing the id. -/
def writerDrop (e : Engine) (w : StreamWriterM) : Engine :=
  { e with locks := lockDrop e.locks w.id }

/-- StreamStorage::create_replicated_stream from store.rs: serialize a
fresh record and insert it, unconditionally. -/
def createReplicatedStream (kv : List (StreamId × Stream)) (id : StreamId) :
    Except StoreError (List (StreamId × Stream)) :=
  .ok (kvInsert kv id (Stream.new id))

/-- StreamStorage::remove_stream from store.rs: take the lock, unlink
the data file (an error if it is absent, leaving the KV untouched),
then delete the KV entry.  The lock token is dropped on return. -/
def removeStream (e : Engine) (id : StreamId) : Option StoreError × Engine :=
  if id ∈ e.locks then (some .busy, e)
  else
    match fileGet e.files id with
    | none => (some .ioNotFound, e)
    | some _ =>
        (none, { e with files := fileRemove e.files id, kv := kvRemove e.kv id })

/-- StreamStorage::streams from store.rs: iterate the KV, yielding each
id with its signed head. -/
def streams (e : Engine) : List (StreamId × SignedHead) :=
  e.kv.map fun p => (p.1, p.2.head)

/-- Reader returned by slice. -/
structure StreamReaderM where
  id : StreamId
  head : Head
  start : Nat
  len : Nat
deriving DecidableEq

/-- Modelled from the spec: `StreamReader::new` is code of this
repository that is not under src/.  Per spec section 4.7 a reader is
constructed from the path, a head snapshot and the range, and reads are
bounded by the snapshot length, so an out-of-range request fails with
RangeOutOfBounds; file I/O is abstracted as success. -/
def streamReaderNew (id : StreamId) (h : Head) (start len : Nat) :
    Except StoreError StreamReaderM :=
  if start + len ≤ h.len then .ok ⟨id, h, start, len⟩
  else .error .rangeOutOfBounds

/-- StreamStorage::slice from store.rs: look up the record (NotFound if
absent) and build a reader on the current head snapshot. -/
def sliceOp (e : Engine) (id : StreamId) (start len : Nat) :
    Except StoreError StreamReaderM :=
  match kvGet e.kv id with
  | none => .error .notFound
  | some st => streamReaderNew id st.head.head start len

/-- StreamStorage::extract from store.rs, parametric in the external
Bao slice extractor `ext` (file bytes, outboard, start, len).  The
source first clears `slice.data`, then looks up the record, opens the
data file, stores the current signed head into `slice.head`, and reads
the extractor output into the cleared buffer.  The pair returned is the
error, if any, together with the final state of the `out` argument. -/
def extract (ext : List Nat → List Nat → Nat → Nat → List Nat) (e : Engine)
    (id : StreamId) (start len : Nat) (out : Slice) :
    Option StoreError × Slice :=
  let out1 : Slice := { out with data := [] }
  match kvGet e.kv id with
  | none => (some .notFound, out1)
  | some st =>
      match fileGet e.files id with
      | none => (some .ioNotFound, out1)
      | some fileBytes =>
          (none, { head := st.head, data := ext fileBytes st.outboard start len })

/-- Directory state of the filesystem: the set of directories that
exist, each as a list of path components. -/
structure FS where
  dirs : List (List String)
deriving DecidableEq

/-- sled::open: opens the database at the path, creating its directory
as needed; opening an existing database succeeds. -/
def sledOpen (fs : FS) (p : List String) : FS :=
  if p ∈ fs.dirs then fs else ⟨p :: fs.dirs⟩

/-- std::fs::create_dir: fails with an AlreadyExists I/O error when the
directory is already present. -/
def createDir (fs : FS) (p : List String) : Except StoreError FS :=
  if p ∈ fs.dirs then .error .ioAlreadyExists else .ok ⟨p :: fs.dirs⟩

/-- StreamStorage::open from store.rs: open the KV at dir/db, then
`std::fs::create_dir(dir/streams)`, propagating its error. -/
def openStorage (fs : FS) (dir : List String) : Except StoreError FS :=
  let fs1 := sledOpen fs (dir ++ ["db"])
  match createDir fs1 (dir ++ ["streams"]) with
  | .error err => .error err
  | .ok fs2 => .ok fs2

/-- All-zero 32-byte peer, a convenient concrete test identity. -/
def zeroPeer : List Nat := List.replicate 32 0

/-- Concrete id under the zero peer. -/
def idZero : StreamId := ⟨zeroPeer, 0⟩

/-- A peer differing from `zeroPeer`. -/
def foreignPeer : List Nat := 1 :: List.replicate 31 0

/-- Concrete id under the foreign peer. -/
def idForeign : StreamId := ⟨foreignPeer, 0⟩

/-- A non-fresh record: length 5, some outboard bytes. -/
def oldRec : Stream :=
  ⟨⟨⟨idZero, List.replicate 32 0, 5⟩, List.replicate 64 0⟩, [1, 2, 3]⟩

/-- Engine holding one stream of a foreign peer, with the local key
being the zero peer. -/
def engForeign : Engine :=
  ⟨[(idForeign, Stream.new idForeign)], [], [], zeroPeer⟩

/-- Engine holding one local stream with an empty data file. -/
def engLocal : Engine :=
  ⟨[(idZero, Stream.new idZero)], [(idZero, [])], [], zeroPeer⟩

/-- A concrete stand-in for the external slice extractor. -/
def extractorStub : List Nat → List Nat → Nat → Nat → List Nat :=
  fun fileBytes outboard _ _ => fileBytes ++ outboard

/-- C1: the claim says open succeeds whenever dir/streams already
exists, e.g. on any reopen after a successful open.  The source calls
`std::fs::create_dir(dir/streams)` unconditionally and propagates its
error, so the second open of the same directory fails with the
AlreadyExists I/O error instead of succeeding. -/
theorem open_fails_when_streams_dir_exists :
    openStorage ⟨[]⟩ ["store"] = .ok ⟨[["store", "streams"], ["store", "db"]]⟩ ∧
    openStorage ⟨[["store", "streams"], ["store", "db"]]⟩ ["store"] =
      .error .ioAlreadyExists :=
  ⟨rfl, rfl⟩

/-- C4: evaluation of the code at a failing input.  When the 32 peer
bytes do not form a valid Ed25519 public key (modelled by `keyValid`
returning false), SignedHead::verify reaches the
`PublicKey::from_bytes(..).unwrap()` inside StreamId::peer and panics,
instead of returning an InvalidKey error as the claim requires. -/
theorem verify_panics_on_invalid_peer_key :
    SignedHead.verify (fun _ => false) (fun _ _ _ => true)
      (SignedHead.new idZero) idZero = .panicked := by
  rfl

/-- C6: a freshly created stream record has length 0, the literal
empty-input Bao root digest, the all-zero 64-byte signature sentinel,
and the 8-byte little-endian encoding of length 0 as its outboard. -/
theorem stream_new_empty_record (id : StreamId) :
    (Stream.new id).head.head.len = 0 ∧
    (Stream.new id).head.head.hash =
      [175, 19, 73, 185, 245, 249, 161, 166, 160, 64, 77, 234, 54, 220, 201,
       73, 155, 203, 37, 201, 173, 193, 18, 183, 204, 154, 147, 202, 228, 31,
       50, 98] ∧
    (Stream.new id).head.sig = List.replicate 64 0 ∧
    (Stream.new id).outboard = u64LE 0 :=
  ⟨rfl, rfl, rfl, rfl⟩

/-- C2 counterexample: with a non-fresh record already stored under the
id, create_replicated_stream does not fail with AlreadyExists; it
succeeds and replaces the stored record with a fresh empty one. -/
theorem createReplicated_overwrites_counterexample :
    createReplicatedStream [(idZero, oldRec)] idZero =
      .ok (kvInsert [(idZero, oldRec)] idZero (Stream.new idZero)) ∧
    kvGet [(idZero, oldRec)] idZero = some oldRec ∧
    kvGet (kvInsert [(idZero, oldRec)] idZero (Stream.new idZero)) idZero =
      some (Stream.new idZero) ∧
    Stream.new idZero ≠ oldRec :=
  ⟨rfl, rfl, rfl, by decide⟩

/-- C2 amended: create_replicated_stream inserts an empty record under
the id unconditionally, overwriting any record already stored there. -/
theorem createReplicated_unconditional_insert
    (kv : List (StreamId × Stream)) (id : StreamId) :
    createReplicatedStream kv id = .ok (kvInsert kv id (Stream.new id)) ∧
    kvGet (kvInsert kv id (Stream.new id)) id = some (Stream.new id) := by
  refine ⟨rfl, ?_⟩
  simp [kvGet, kvInsert]

/-- C3 counterexample: with a stream of a foreign peer stored and the
local key being the zero peer, append_local_stream succeeds and returns
a signing writer, instead of failing with NotLocal. -/
theorem appendLocal_foreign_peer_succeeds_counterexample :
    appendLocalStream engForeign idForeign =
      .ok ({ engForeign with locks := [idForeign] },
        streamWriterNew idForeign (Stream.new idForeign) zeroPeer) ∧
    idForeign.peer ≠ engForeign.keyPub :=
  ⟨rfl, by decide⟩

/-- C3 amended: append_local_stream performs no peer check; for every
existing, unlocked id, even one whose peer differs from the local
public key, it returns a writer holding the local signing key. -/
theorem appendLocal_no_peer_check (e : Engine) (id : StreamId) (st : Stream)
    (hlock : id ∉ e.locks) (hkv : kvGet e.kv id = some st)
    (_hpeer : id.peer ≠ e.keyPub) :
    appendLocalStream e id =
      .ok ({ e with locks := id :: e.locks }, streamWriterNew id st e.keyPub) := by
  simp [appendLocalStream, lockStream, hlock, hkv]

/-- C3 witness: the amended statement applied to the concrete foreign
engine. -/
theorem appendLocal_no_peer_check_witness :
    appendLocalStream engForeign idForeign =
      .ok ({ engForeign with locks := idForeign :: engForeign.locks },
        streamWriterNew idForeign (Stream.new idForeign) engForeign.keyPub) :=
  appendLocal_no_peer_check engForeign idForeign (Stream.new idForeign)
    (by decide) rfl (by decide)

/-- Deleting a key from the KV makes lookups of that key fail. -/
theorem kvGet_kvRemove (kv : List (StreamId × Stream)) (id : StreamId) :
    kvGet (kvRemove kv id) id = none := by
  have hfind : (kvRemove kv id).find? (fun p => decide (p.1 = id)) = none := by
    rw [List.find?_eq_none]
    intro x hx
    have hne := (List.mem_filter.mp hx).2
    simp only [ne_eq, decide_not, Bool.not_eq_true', decide_eq_false_iff_not,
      Decidable.not_not] at hne ⊢
    simp [hne]
  unfold kvGet
  rw [hfind]

/-- Unlinking the data file of an id makes file lookups of it fail. -/
theorem fileGet_fileRemove (files : List (StreamId × List Nat)) (id : StreamId) :
    fileGet (fileRemove files id) id = none := by
  have hfind : (fileRemove files id).find? (fun p => decide (p.1 = id)) = none := by
    rw [List.find?_eq_none]
    intro x hx
    have hne := (List.mem_filter.mp hx).2
    simp only [ne_eq, decide_not, Bool.not_eq_true', decide_eq_false_iff_not,
      Decidable.not_not] at hne ⊢
    simp [hne]
  unfold fileGet
  rw [hfind]

/-- C7: per-stream exclusion.  Acquiring the lock succeeds exactly when
the id is absent from the set, inserting it, and otherwise fails
immediately with Busy; dropping the token removes the id; consequently
of two append_local calls for one id the second fails with Busy while
the first writer is alive, and succeeds after the writer is dropped. -/
theorem lock_exclusion_appendLocal (e : Engine) (id : StreamId) (st : Stream)
    (hkv : kvGet e.kv id = some st) (hlock : id ∉ e.locks) :
    (∀ l : List StreamId,
        (lockStream l id = .ok (id :: l) ↔ id ∉ l) ∧
        (id ∈ l → lockStream l id = .error .busy)) ∧
    lockDrop (id :: e.locks) id = e.locks ∧
    appendLocalStream e id =
      .ok ({ e with locks := id :: e.locks }, streamWriterNew id st e.keyPub) ∧
    appendLocalStream { e with locks := id :: e.locks } id = .error .busy ∧
    appendLocalStream
        (writerDrop { e with locks := id :: e.locks }
          (streamWriterNew id st e.keyPub)) id =
      .ok ({ e with locks := id :: e.locks }, streamWriterNew id st e.keyPub) := by
  have hdrop : lockDrop (id :: e.locks) id = e.locks := by
    simp [lockDrop]
  have h3 : appendLocalStream e id =
      .ok ({ e with locks := id :: e.locks }, streamWriterNew id st e.keyPub) := by
    simp [appendLocalStream, lockStream, hlock, hkv]
  have hw : writerDrop { e with locks := id :: e.locks }
      (streamWriterNew id st e.keyPub) = e := by
    show { e with locks := lockDrop (id :: e.locks) id } = e
    rw [hdrop]
  refine ⟨?_, hdrop, h3, ?_, ?_⟩
  · intro l
    refine ⟨⟨?_, ?_⟩, ?_⟩
    · intro h hmem
      simp [lockStream, hmem] at h
    · intro h
      simp [lockStream, h]
    · intro h
      simp [lockStream, h]
  · simp [appendLocalStream, lockStream]
  · rw [hw]
    exact h3

/-- C7 witness: with one local stream stored and its id already locked,
the second append_local call returns Busy. -/
theorem lock_exclusion_appendLocal_witness :
    appendLocalStream { engLocal with locks := idZero :: engLocal.locks } idZero =
      .error .busy :=
  (lock_exclusion_appendLocal engLocal idZero (Stream.new idZero) rfl
    (by decide)).2.2.2.1

/-- C8: remove_stream unlinks the data file before the KV delete, so a
failing unlink leaves the KV entry untouched; and after a successful
remove the id is gone from the KV, from streams(), and both slice and
extract fail with NotFound. -/
theorem removeStream_order_and_postconditions :
    (∀ e : Engine, ∀ id : StreamId, ∀ e2 : Engine,
        removeStream e id = (none, e2) →
        kvGet e2.kv id = none ∧ fileGet e2.files id = none ∧
        (∀ p ∈ streams e2, p.1 ≠ id) ∧
        (∀ start len, sliceOp e2 id start len = .error .notFound) ∧
        (∀ ext start len out,
          (extract ext e2 id start len out).1 = some .notFound)) ∧
    (∀ e : Engine, ∀ id : StreamId, id ∉ e.locks → fileGet e.files id = none →
        removeStream e id = (some .ioNotFound, e)) := by
  constructor
  · intro e id e2 h
    unfold removeStream at h
    by_cases hl : id ∈ e.locks
    · simp [hl] at h
    · rw [if_neg hl] at h
      cases hf : fileGet e.files id with
      | none =>
          rw [hf] at h
          simp at h
      | some fb =>
          rw [hf] at h
          injection h with h1 h2
          subst h2
          refine ⟨kvGet_kvRemove _ _, fileGet_fileRemove _ _, ?_, ?_, ?_⟩
          · intro p hp
            unfold streams at hp
            simp only [List.mem_map] at hp
            obtain ⟨q, hq, rfl⟩ := hp
            have := (List.mem_filter.mp hq).2
            simpa using this
          · intro start len
            simp [sliceOp, kvGet_kvRemove]
          · intro ext start len out
            simp [extract, kvGet_kvRemove]
  · intro e id hl hf
    unfold removeStream
    rw [if_neg hl, hf]

/-- C8 witness: removing the concrete local stream succeeds and its KV
entry is gone afterwards. -/
theorem removeStream_witness :
    kvGet ((removeStream engLocal idZero).2).kv idZero = none :=
  (removeStream_order_and_postconditions.1 engLocal idZero
    (removeStream engLocal idZero).2 rfl).1

/-- C10: a successful extract fills the output slice with the stored
signed head and exactly the extractor bytes for the requested range,
independently of whatever head and data bytes the slice held before;
the prior buffer is discarded, never prepended or appended. -/
theorem extract_independent_of_prior_slice
    (ext : List Nat → List Nat → Nat → Nat → List Nat) (e : Engine)
    (id : StreamId) (start len : Nat) (st : Stream) (fileBytes : List Nat)
    (hkv : kvGet e.kv id = some st)
    (hfile : fileGet e.files id = some fileBytes) :
    ∀ out : Slice,
      extract ext e id start len out =
        (none, ⟨st.head, ext fileBytes st.outboard start len⟩) := by
  intro out
  simp [extract, hkv, hfile]

/-- C10 witness: extracting from the concrete local stream with a dirty
output slice yields exactly the stored head and the extractor bytes. -/
theorem extract_independent_of_prior_slice_witness :
    extract extractorStub engLocal idZero 0 0
        ⟨SignedHead.new idForeign, [9, 9, 9]⟩ =
      (none, ⟨(Stream.new idZero).head,
        extractorStub [] (Stream.new idZero).outboard 0 0⟩) :=
  extract_independent_of_prior_slice extractorStub engLocal idZero 0 0
    (Stream.new idZero) [] rfl rfl ⟨SignedHead.new idForeign, [9, 9, 9]⟩

/-- Decoding an alphabet character inverts encoding a sextet. -/
theorem charToSextet_sextetToChar : ∀ n, n < 64 →
    charToSextet (sextetToChar n) = some n := by
  decide

/-- No alphabet character is the dot separator. -/
theorem sextetToChar_ne_dot : ∀ n, n < 64 → sextetToChar n ≠ '.' := by
  decide

/-- Encoded sextet values are six bits wide whenever the input bytes
are eight bits wide. -/
theorem encodeChunks_lt : ∀ bs : List Nat, (∀ b ∈ bs, b < 256) →
    ∀ s ∈ b64EncodeChunks bs, s < 64 := by
  intro bs
  induction bs using b64EncodeChunks.induct with
  | case1 =>
      intro h s hs
      simp [b64EncodeChunks] at hs
  | case2 b1 =>
      intro h s hs
      have hb1 : b1 < 256 := h b1 (by simp)
      simp [b64EncodeChunks] at hs
      rcases hs with h1 | h1 <;> omega
  | case3 b1 b2 =>
      intro h s hs
      have hb1 : b1 < 256 := h b1 (by simp)
      have hb2 : b2 < 256 := h b2 (by simp)
      simp [b64EncodeChunks] at hs
      rcases hs with h1 | h1 | h1 <;> omega
  | case4 b1 b2 b3 rest ih =>
      intro h s hs
      have hb1 : b1 < 256 := h b1 (by simp)
      have hb2 : b2 < 256 := h b2 (by simp)
      have hb3 : b3 < 256 := h b3 (by simp)
      have hrest : ∀ b ∈ rest, b < 256 := fun b hb => h b (by simp [hb])
      simp only [b64EncodeChunks, List.mem_cons] at hs
      rcases hs with h1 | h1 | h1 | h1 | h1
      · omega
      · omega
      · omega
      · omega
      · exact ih hrest s h1

/-- Decoding chunk groups inverts encoding them, for byte inputs. -/
theorem decode_encode_chunks : ∀ bs : List Nat, (∀ b ∈ bs, b < 256) →
    b64DecodeChunks (b64EncodeChunks bs) = some bs := by
  intro bs
  induction bs using b64EncodeChunks.induct with
  | case1 =>
      intro h
      rfl
  | case2 b1 =>
      intro h
      have hb1 : b1 < 256 := h b1 (by simp)
      show b64DecodeChunks [b1 / 4, b1 % 4 * 16] = some [b1]
      unfold b64DecodeChunks
      rw [if_pos (by omega)]
      have he : b1 / 4 * 4 + b1 % 4 * 16 / 16 = b1 := by omega
      rw [he]
  | case3 b1 b2 =>
      intro h
      have hb1 : b1 < 256 := h b1 (by simp)
      have hb2 : b2 < 256 := h b2 (by simp)
      show b64DecodeChunks [b1 / 4, b1 % 4 * 16 + b2 / 16, b2 % 16 * 4] =
        some [b1, b2]
      unfold b64DecodeChunks
      rw [if_pos (by omega)]
      have he1 : b1 / 4 * 4 + (b1 % 4 * 16 + b2 / 16) / 16 = b1 := by omega
      have he2 : (b1 % 4 * 16 + b2 / 16) % 16 * 16 + b2 % 16 * 4 / 4 = b2 := by
        omega
      rw [he1, he2]
  | case4 b1 b2 b3 rest ih =>
      intro h
      have hb1 : b1 < 256 := h b1 (by simp)
      have hb2 : b2 < 256 := h b2 (by simp)
      have hb3 : b3 < 256 := h b3 (by simp)
      have hrest : ∀ b ∈ rest, b < 256 := fun b hb => h b (by simp [hb])
      show b64DecodeChunks (b1 / 4 :: (b1 % 4 * 16 + b2 / 16) ::
          (b2 % 16 * 4 + b3 / 64) :: b3 % 64 :: b64EncodeChunks rest) =
        some (b1 :: b2 :: b3 :: rest)
      unfold b64DecodeChunks
      rw [ih hrest]
      simp only [Option.map_some']
      have he1 : b1 / 4 * 4 + (b1 % 4 * 16 + b2 / 16) / 16 = b1 := by omega
      have he2 : (b1 % 4 * 16 + b2 / 16) % 16 * 16 +
          (b2 % 16 * 4 + b3 / 64) / 4 = b2 := by omega
      have he3 : (b2 % 16 * 4 + b3 / 64) % 4 * 64 + b3 % 64 = b3 := by omega
      rw [he1, he2, he3]

/-- Reading back the characters of encoded sextets yields the sextets. -/
theorem charsToSextets_map (l : List Nat) (h : ∀ s ∈ l, s < 64) :
    charsToSextets (l.map sextetToChar) = some l := by
  induction l with
  | nil => rfl
  | cons x xs ih =>
      have hx : charToSextet (sextetToChar x) = some x :=
        charToSextet_sextetToChar x (h x (by simp))
      have hxs := ih fun s hs => h s (by simp [hs])
      simp [List.map_cons, charsToSextets, hx, hxs]

/-- base64url round trip on byte lists. -/
theorem base64_decode_encode (bs : List Nat) (h : ∀ b ∈ bs, b < 256) :
    base64Decode (base64Encode bs) = some bs := by
  unfold base64Decode base64Encode
  rw [charsToSextets_map _ (encodeChunks_lt bs h)]
  exact decode_encode_chunks bs h

/-- The dot never occurs in a base64url encoding. -/
theorem dot_not_mem_base64Encode (bs : List Nat) (h : ∀ b ∈ bs, b < 256) :
    '.' ∉ base64Encode bs := by
  intro hmem
  unfold base64Encode at hmem
  rw [List.mem_map] at hmem
  obtain ⟨s, hs, heq⟩ := hmem
  exact sextetToChar_ne_dot s (encodeChunks_lt bs h s hs) heq

/-- split_once finds the separator appended after a clean first part. -/
theorem splitOnce_append (c : Char) (l1 l2 : List Char) (h : c ∉ l1) :
    splitOnce c (l1 ++ c :: l2) = some (l1, l2) := by
  induction l1 with
  | nil => simp [splitOnce]
  | cons x xs ih =>
      have hx : x ≠ c := fun he => h (he ▸ List.mem_cons_self x xs)
      have hxs : c ∉ xs := fun hm => h (List.mem_cons_of_mem _ hm)
      simp [splitOnce, hx, ih hxs]

/-- split_once fails exactly on strings without the separator. -/
theorem splitOnce_eq_none (c : Char) (l : List Char) (h : c ∉ l) :
    splitOnce c l = none := by
  induction l with
  | nil => rfl
  | cons x xs ih =>
      have hx : x ≠ c := fun he => h (he ▸ List.mem_cons_self x xs)
      have hxs : c ∉ xs := fun hm => h (List.mem_cons_of_mem _ hm)
      simp [splitOnce, hx, ih hxs]

/-- split_once splits at the first separator occurrence. -/
theorem splitOnce_of_mem (c : Char) (l : List Char) (h : c ∈ l) :
    splitOnce c l =
      some (l.takeWhile fun x => decide (x ≠ c),
        (l.dropWhile fun x => decide (x ≠ c)).tail) := by
  induction l with
  | nil => cases h
  | cons x xs ih =>
      by_cases hx : x = c
      · subst hx
        simp [splitOnce, List.takeWhile_cons, List.dropWhile_cons]
      · have hmem : c ∈ xs := by
          rcases List.mem_cons.mp h with he | hm
          · exact absurd he.symm hx
          · exact hm
        simp [splitOnce, hx, ih hmem, List.takeWhile_cons, List.dropWhile_cons]

/-- Appending one digit multiplies the accumulated value by ten. -/
theorem digitsVal_append_singleton (l : List Char) (c : Char) :
    digitsVal (l ++ [c]) = digitsVal l * 10 + (c.toNat - 48) := by
  unfold digitsVal
  rw [List.foldl_append]
  rfl

/-- The decimal rendering evaluates back to the rendered number. -/
theorem digitsVal_decDigits : ∀ f n : Nat, n < 10 ^ f →
    digitsVal (decDigits f n) = n := by
  intro f
  induction f with
  | zero =>
      intro n hn
      have h0 : n = 0 := by simpa using hn
      subst h0
      rfl
  | succ f ih =>
      intro n hn
      unfold decDigits
      by_cases h0 : n = 0
      · subst h0
        rfl
      · rw [if_neg h0, digitsVal_append_singleton]
        have hdiv : n / 10 < 10 ^ f := by
          rw [Nat.div_lt_iff_lt_mul (by norm_num)]
          calc n < 10 ^ (f + 1) := hn
          _ = 10 ^ f * 10 := by ring
        rw [ih (n / 10) hdiv]
        have hm : n % 10 < 10 := Nat.mod_lt _ (by norm_num)
        have hc : ∀ d, d < 10 → (Char.ofNat (48 + d)).toNat = 48 + d := by
          decide
        rw [hc (n % 10) hm]
        omega

/-- Every character of a decimal rendering is an ASCII digit, and in
particular not a plus sign. -/
theorem decDigits_mem_digit : ∀ f n : Nat, ∀ c ∈ decDigits f n,
    c.isDigit = true ∧ c ≠ '+' := by
  intro f
  induction f with
  | zero =>
      intro n c hc
      simp [decDigits] at hc
  | succ f ih =>
      intro n c hc
      unfold decDigits at hc
      by_cases h0 : n = 0
      · rw [if_pos h0] at hc
        simp at hc
      · rw [if_neg h0, List.mem_append] at hc
        rcases hc with hrec | hlast
        · exact ih _ c hrec
        · rw [List.mem_singleton] at hlast
          subst hlast
          have hm : n % 10 < 10 := Nat.mod_lt _ (by norm_num)
          have : ∀ d, d < 10 →
              (Char.ofNat (48 + d)).isDigit = true ∧ Char.ofNat (48 + d) ≠ '+' := by
            decide
          exact this _ hm

/-- The decimal rendering of a positive number is nonempty. -/
theorem decDigits_ne_nil (f n : Nat) (h0 : n ≠ 0) : decDigits (f + 1) n ≠ [] := by
  unfold decDigits
  rw [if_neg h0]
  simp

/-- u64 parse inverts u64 display, for values that fit in 64 bits. -/
theorem parseU64_natToDecimal (n : Nat) (hn : n < 2 ^ 64) :
    parseU64 (natToDecimal n) = some n := by
  by_cases h0 : n = 0
  · subst h0
    rfl
  · unfold natToDecimal
    rw [if_neg h0]
    have hne : decDigits 20 n ≠ [] := decDigits_ne_nil 19 n h0
    have hstrip : stripPlus (decDigits 20 n) = decDigits 20 n := by
      cases hl : decDigits 20 n with
      | nil => exact absurd hl hne
      | cons c0 cs =>
          have hc0 : c0 ≠ '+' :=
            (decDigits_mem_digit 20 n c0 (by rw [hl]; simp)).2
          simp [stripPlus, hc0]
    have hempty : (decDigits 20 n).isEmpty = false := by
      cases hl : decDigits 20 n with
      | nil => exact absurd hl hne
      | cons c0 cs => rfl
    have hall : (decDigits 20 n).all Char.isDigit = true := by
      rw [List.all_eq_true]
      intro c hc
      exact (decDigits_mem_digit 20 n c hc).1
    have hval : digitsVal (decDigits 20 n) = n :=
      digitsVal_decDigits 20 n (by calc n < 2 ^ 64 := hn
        _ < 10 ^ 20 := by norm_num)
    unfold parseU64
    rw [hstrip, hempty, hall, hval]
    have hn2 : n < 18446744073709551616 := hn
    simp [hn2]

/-- C5: formatting a StreamId to its canonical text form and parsing it
back yields the original id, for every 32-byte peer and every stream
number below 2 to the 64. -/
theorem streamId_format_parse_roundtrip (peer : List Nat) (stream : Nat)
    (hlen : peer.length = 32) (hb : ∀ b ∈ peer, b < 256)
    (hs : stream < 2 ^ 64) :
    fromStr (formatId ⟨peer, stream⟩) = some ⟨peer, stream⟩ := by
  unfold formatId fromStr
  simp only [splitOnce_append '.' _ _ (dot_not_mem_base64Encode peer hb),
    base64_decode_encode peer hb, parseU64_natToDecimal stream hs]
  have htake : (peer ++ List.replicate 32 0).take 32 = peer := by
    rw [show (32 : Nat) = peer.length from hlen.symm]
    exact List.take_left _ _
  rw [htake]

/-- C5 witness: round trip at the zero peer and stream number three. -/
theorem streamId_format_parse_roundtrip_witness :
    (zeroPeer.length = 32 ∧ (∀ b ∈ zeroPeer, b < 256) ∧ (3 : Nat) < 2 ^ 64) ∧
    fromStr (formatId ⟨zeroPeer, 3⟩) = some ⟨zeroPeer, 3⟩ :=
  ⟨⟨by decide, by decide, by norm_num⟩,
    streamId_format_parse_roundtrip zeroPeer 3 (by decide) (by decide)
      (by norm_num)⟩

/-- Parsing after a successful split reduces to decoding the peer part
and parsing the suffix. -/
theorem fromStr_split_reduce (s : List Char) (a b : List Char)
    (hsplit : splitOnce '.' s = some (a, b)) :
    fromStr s =
      match base64Decode a with
      | none => none
      | some bytes =>
          match parseU64 b with
          | none => none
          | some n => some ⟨(bytes ++ List.replicate 32 0).take 32, n⟩ := by
  unfold fromStr
  rw [hsplit]

/-- C9: StreamId parsing fails exactly when the string lacks a dot,
when base64url decoding of the part before the first dot fails, or when
the suffix after it does not parse as a u64; when the peer part decodes
to at most 32 bytes the resulting peer is the decoded bytes right
padded with zeros to 32. -/
theorem fromStr_failure_characterization (s : List Char) :
    (fromStr s = none ↔
      '.' ∉ s ∨
      base64Decode (s.takeWhile fun x => decide (x ≠ '.')) = none ∨
      parseU64 ((s.dropWhile fun x => decide (x ≠ '.')).tail) = none) ∧
    (∀ bytes n, '.' ∈ s →
      base64Decode (s.takeWhile fun x => decide (x ≠ '.')) = some bytes →
      bytes.length ≤ 32 →
      parseU64 ((s.dropWhile fun x => decide (x ≠ '.')).tail) = some n →
      fromStr s = some ⟨bytes ++ List.replicate (32 - bytes.length) 0, n⟩) := by
  by_cases hdot : '.' ∈ s
  · have hsplit := splitOnce_of_mem '.' s hdot
    constructor
    · rw [fromStr_split_reduce s _ _ hsplit]
      cases hb : base64Decode (s.takeWhile fun x => decide (x ≠ '.')) with
      | none => simp [hdot]
      | some bytes =>
          cases hp : parseU64 ((s.dropWhile fun x => decide (x ≠ '.')).tail) with
          | none => simp [hdot]
          | some n => simp [hdot]
    · intro bytes n _ hb hblen hp
      rw [fromStr_split_reduce s _ _ hsplit, hb, hp]
      have htake : (bytes ++ List.replicate 32 0).take 32 =
          bytes ++ List.replicate (32 - bytes.length) 0 := by
        rw [List.take_append_eq_append_take, List.take_of_length_le hblen,
          List.take_replicate]
        have hmin : (32 - bytes.length) ⊓ 32 = 32 - bytes.length :=
          Nat.min_eq_left (by omega)
        rw [hmin]
      show some (⟨(bytes ++ List.replicate 32 0).take 32, n⟩ : StreamId) =
        some ⟨bytes ++ List.replicate (32 - bytes.length) 0, n⟩
      rw [htake]
  · have hsplit := splitOnce_eq_none '.' s hdot
    constructor
    · unfold fromStr
      rw [hsplit]
      simp [hdot]
    · intro bytes n hdot2
      exact absurd hdot2 hdot

/-- C9 witness: a two-character peer part decodes to one byte and is
right padded with 31 zeros; the suffix parses as five. -/
theorem fromStr_failure_characterization_witness :
    fromStr ['A', 'A', '.', '5'] = some ⟨0 :: List.replicate 31 0, 5⟩ := by
  have h := (fromStr_failure_characterization ['A', 'A', '.', '5']).2 [0] 5
    (by decide) (by decide) (by decide) (by decide)
  simpa using h

end BlakeStreams
